import Mathlib

/-!
Shallow embedding of the spinlock and process core of a small multi-hart
RISC-V kernel (source files src/spinlock.rs and src/process/proc.rs).

Conventions used throughout:
- machine integers become Nat or Int, and fallible or aborting code returns
  Option or Except, with none / error modelling a kernel panic;
- hardware and per-hart state (the sstatus interrupt-enable bit, the per-hart
  interrupt-nesting counter, the satp and sepc registers, the hart id) is
  passed and returned explicitly;
- collaborators that the sources declare or call but whose code is not among
  the sources (register access, the per-hart cpu bookkeeping, the page-table
  builder, the trap-frame layout, the process manager) are modelled from the
  spec, as marked on each such definition.
-/

/-- Per-hart interrupt state: the sstatus interrupt-enable bit `sie`, the
nesting depth `noff` of outstanding push_off calls, and the enable state
`intena` recorded at the outermost push_off. -/
structure IntrState where
  sie : Bool
  noff : Nat
  intena : Bool
deriving DecidableEq

/-- Modelled from the spec: register::sstatus::intr_get reads the local
interrupt-enable bit. -/
def intr_get (s : IntrState) : Bool := s.sie

/-- Modelled from the spec: register::sstatus::intr_off clears the local
interrupt-enable bit. -/
def intr_off (s : IntrState) : IntrState := { s with sie := false }

/-- Modelled from the spec: process::push_off records the pre-disable enable
state on the first, outermost push only, and increments the per-hart
interrupt-nesting counter. -/
def proc_push_off (old : Bool) (s : IntrState) : IntrState :=
  { s with noff := s.noff + 1, intena := if s.noff = 0 then old else s.intena }

/-- Modelled from the spec: process::pop_off decrements the per-hart
interrupt-nesting counter, re-enabling interrupts exactly when the counter
returns to zero and the recorded pre-disable state was enabled; a pop with no
matching push is fatal (none). -/
def proc_pop_off (s : IntrState) : Option IntrState :=
  match s.noff with
  | 0 => none
  | m + 1 => some ⟨((m == 0) && s.intena) || s.sie, m, s.intena⟩

/-- spinlock.rs push_off: save the current enable bit, disable local
interrupts, then call process::push_off with the saved bit. -/
def push_off (s : IntrState) : IntrState :=
  proc_push_off (intr_get s) (intr_off s)

/-- spinlock.rs pop_off: fatal (none) if local interrupts are enabled,
otherwise call process::pop_off. -/
def pop_off (s : IntrState) : Option IntrState :=
  if intr_get s then none else proc_pop_off s

/-- A sequence of n consecutive push_off calls, first call first. -/
def pushN : Nat → IntrState → IntrState
  | 0, s => s
  | n + 1, s => pushN n (push_off s)

/-- A sequence of n consecutive pop_off calls, first call first; none as soon
as one of them is fatal. -/
def popN : Nat → IntrState → Option IntrState
  | 0, s => some s
  | n + 1, s => (pop_off s).bind (popN n)

/-- Debugging/owner state of one SpinLock: the owning hart id as in the
source field cpu_id (-1 when the lock is not held by any cpu) and the atomic
locked flag. The protected payload and the static name do not participate in
any claim and are omitted. -/
structure LockState where
  cpu_id : Int
  lock : Bool
deriving DecidableEq

/-- Per-hart machine state used by this core: the hart id (what cpu_id()
returns), the interrupt state, and the satp and sepc control registers. -/
structure Hart where
  hartid : Nat
  intr : IntrState
  satp : Nat
  sepc : Nat
deriving DecidableEq

/-- spinlock.rs SpinLock::holding: push_off, test the locked flag and the
recorded owner against the current hart, pop_off, return the test; none
models a panic inside pop_off. -/
def holding (lk : LockState) (h : Hart) : Option (Bool × Hart) :=
  let h1 : Hart := { h with intr := push_off h.intr }
  let r : Bool := lk.lock && (lk.cpu_id == (h1.hartid : Int))
  match pop_off h1.intr with
  | none => none
  | some i2 => some (r, { h1 with intr := i2 })

/-- Result of SpinLock::acquire_lock in a sequential, single-hart embedding:
a fatal panic, an endless busy-wait (the lock is held by another hart, so the
compare-and-swap can never succeed without that hart running), or success
with the new lock and hart state. -/
inductive AcqResult where
  | panicked : AcqResult
  | spins : AcqResult
  | ok : LockState → Hart → AcqResult
deriving DecidableEq

/-- spinlock.rs SpinLock::acquire_lock: push_off; fatal if this hart already
holds the lock; otherwise the compare-and-swap loop either succeeds at once
(lock free) or spins (lock held by another hart); on success issue the fence
(no content in this sequential embedding) and record the owner. -/
def acquire_lock (lk : LockState) (h : Hart) : AcqResult :=
  let h1 : Hart := { h with intr := push_off h.intr }
  match holding lk h1 with
  | none => AcqResult.panicked
  | some (r, h2) =>
    if r then AcqResult.panicked
    else if lk.lock then AcqResult.spins
    else AcqResult.ok { lk with lock := true, cpu_id := (h2.hartid : Int) } h2

/-- spinlock.rs SpinLock::release_lock: fatal unless the lock is held by this
hart; clear the owner, issue the fence (no content here), store locked =
false, then pop_off. -/
def release_lock (lk : LockState) (h : Hart) : Option (LockState × Hart) :=
  match holding lk h with
  | none => none
  | some (r, h1) =>
    if r then
      match pop_off h1.intr with
      | none => none
      | some i2 => some (⟨-1, false⟩, { h1 with intr := i2 })
    else none

/-- spinlock.rs Drop for SpinLockGuard: dropping the guard, on any scope-exit
path, calls release_lock on the guarded lock. -/
def guard_drop (lk : LockState) (h : Hart) : Option (LockState × Hart) :=
  release_lock lk h

/-- Modelled from the spec: the page size, one of the fixed layout constants
from consts.rs (not among the sources). -/
def PGSIZE : Nat := 4096

/-- Modelled from the spec: the top of the user virtual address space. The
spec fixes no numeric value; every claim below depends only on the layout
relations between the constants (distinct pages at the top of the address
space), never on the address-space magnitude, so a reduced width is used to
keep term-level evaluation tractable. -/
def MAXVA : Nat := 2 ^ 14

/-- Modelled from the spec: the shared trampoline virtual page, identical
across all processes, at the top of the address space. -/
def TRAMPOLINE : Nat := MAXVA - PGSIZE

/-- Modelled from the spec: the private trap-frame virtual page, just below
the trampoline page. -/
def TRAPFRAME : Nat := TRAMPOLINE - PGSIZE

/-- Modelled from the spec: the PteFlag read permission bit. -/
def pteR : Nat := 2

/-- Modelled from the spec: the PteFlag write permission bit. -/
def pteW : Nat := 4

/-- Modelled from the spec: the PteFlag execute permission bit. -/
def pteX : Nat := 8

/-- Modelled from the spec: a user address space built by the external
page-table builder: the physical address of its root page (chosen by the
external allocator), its page mappings as (virtual address, physical address,
permission bits) triples, and the initial program image that uvm_init maps at
user virtual address 0 (empty when uvm_init has not run). -/
structure PageTable where
  root : Nat
  entries : List (Nat × Nat × Nat)
  initImage : List Nat
deriving DecidableEq

/-- Modelled from the spec: PageTable::uvm_create allocates a fresh,
otherwise-empty user address space; the allocator's choice of root page is a
parameter. -/
def uvm_create (root : Nat) : PageTable := ⟨root, [], []⟩

/-- Modelled from the spec: PageTable::map_pages maps a one-page region at a
given virtual address to a given physical address with the given permission
bits; mapping an already-mapped virtual page fails. -/
def map_pages (pt : PageTable) (va sz pa perm : Nat) : Except Unit PageTable :=
  if pt.entries.any (fun e => e.fst == va) then Except.error ()
  else Except.ok { pt with entries := pt.entries ++ [(va, pa, perm)] }

/-- Modelled from the spec: PageTable::uvm_init maps the initial program
image verbatim at user virtual address 0. -/
def uvm_init (pt : PageTable) (code : List Nat) : PageTable :=
  { pt with initImage := code }

/-- Modelled from the spec: PageTable::as_satp encodes the address space as
its Sv39 page-table-root token: the mode bits plus the root physical page
number. -/
def as_satp (pt : PageTable) : Nat := 8 * 2 ^ 60 + pt.root / PGSIZE

/-- Modelled from the spec: the trap-frame fields this core reads or writes
(the full TrapFrame layout lives outside the sources): the kernel page-table
root, kernel stack top, kernel trap-handler address and hart id saved for the
next trap, and the user program counter and user stack pointer. -/
structure TrapFrame where
  kernel_satp : Nat
  kernel_sp : Nat
  kernel_trap : Nat
  kernel_hartid : Nat
  epc : Nat
  sp : Nat
deriving DecidableEq

/-- Modelled from the spec: TrapFrame::set_sp writes the user stack
pointer. -/
def TrapFrame.set_sp (tf : TrapFrame) (v : Nat) : TrapFrame := { tf with sp := v }

/-- Modelled from the spec: the saved kernel-side context, of which this core
uses the return address and the stack pointer. -/
structure Context where
  ra : Nat
  sp : Nat
deriving DecidableEq

/-- Modelled from the spec: Context::new, the zeroed context. -/
def Context.new : Context := ⟨0, 0⟩

/-- Modelled from the spec: Context::clear zeroes the saved context. -/
def Context.clear (c : Context) : Context := ⟨0, 0⟩

/-- Modelled from the spec: Context::set_ra writes the saved return
address. -/
def Context.set_ra (c : Context) (v : Nat) : Context := { c with ra := v }

/-- Modelled from the spec: Context::set_sp writes the saved stack
pointer. -/
def Context.set_sp (c : Context) (v : Nat) : Context := { c with sp := v }

/-- process/proc.rs ProcState. -/
inductive ProcState where
  | UNUSED : ProcState
  | SLEEPING : ProcState
  | RUNNABLE : ProcState
  | RUNNING : ProcState
  | ZOMBIE : ProcState
deriving DecidableEq

/-- process/proc.rs Proc, the per-process control block. The trap-frame
pointer tf is the address of the register-save page (0 models the null
pointer of Proc::new); the content of that page is passed explicitly to the
operations that dereference it. The state lock itself is a SpinLock of unit
payload and is modelled by LockState. -/
structure Proc where
  state : ProcState
  killed : Bool
  pid : Nat
  kstack : Nat
  sz : Nat
  pagetable : Option PageTable
  tf : Nat
  context : Context
  name : List Nat
deriving DecidableEq

/-- process/proc.rs Proc::new: the zero/default Unused slot. -/
def Proc.new : Proc :=
  ⟨ProcState.UNUSED, false, 0, 0, 0, none, 0, Context.new, List.replicate 16 0⟩

/-- process/proc.rs Proc::set_kstack: record the kernel stack base. -/
def Proc.set_kstack (p : Proc) (k : Nat) : Proc := { p with kstack := k }

/-- process/proc.rs Proc::set_tf: bind the trap-frame pointer. -/
def Proc.set_tf (p : Proc) (addr : Nat) : Proc := { p with tf := addr }

/-- process/proc.rs Proc::proc_pagetable: build a fresh user address space
and map the shared trampoline page with read+execute permission and this
process's trap-frame page with read+write permission; a mapping failure is a
fatal expect (none). The allocator's root-page choice and the address of the
kernel trampoline code page (the external linker symbol) are parameters. -/
def proc_pagetable (p : Proc) (root trampolinePa : Nat) : Option Proc :=
  (map_pages (uvm_create root) TRAMPOLINE PGSIZE trampolinePa (pteR ||| pteX)).toOption.bind
    (fun pt1 => (map_pages pt1 TRAPFRAME PGSIZE p.tf (pteR ||| pteW)).toOption.bind
      (fun pt2 => some { p with pagetable := some pt2 }))

/-- process/proc.rs Proc::init_context: clear the saved context, set its
return address to the fork_ret entry shim (an external symbol address passed
as a parameter) and its stack pointer to the top of the kernel stack. -/
def Proc.init_context (p : Proc) (forkRetAddr : Nat) : Proc :=
  { p with context :=
      Context.set_sp (Context.set_ra (Context.clear p.context) forkRetAddr) (p.kstack + PGSIZE) }

/-- process/proc.rs INITCODE: the 51-byte initial user program, byte for
byte. -/
def INITCODE : List Nat := [
  0x17, 0x05, 0x00, 0x00, 0x13, 0x05, 0x05, 0x02,
  0x97, 0x05, 0x00, 0x00, 0x93, 0x85, 0x05, 0x02,
  0x9d, 0x48, 0x73, 0x00, 0x00, 0x00, 0x89, 0x48,
  0x73, 0x00, 0x00, 0x00, 0xef, 0xf0, 0xbf, 0xff,
  0x2f, 0x69, 0x6e, 0x69, 0x74, 0x00, 0x00, 0x01,
  0x20, 0x00, 0x00, 0x00, 0x00, 0x00, 0x00, 0x00,
  0x00, 0x00, 0x00]

/-- The 9 bytes of the label b"initcode" with its NUL terminator, which
user_init copies into the head of the 16-byte name field. -/
def initNameBytes : List Nat := [105, 110, 105, 116, 99, 111, 100, 101, 0]

/-- process/proc.rs Proc::user_init: map INITCODE at user virtual address 0,
set the user address-space size to one page, set the trap frame's entry
program counter to 0 and its user stack pointer to the page size, copy the
initcode label over the head of the name field, and transition to RUNNABLE.
none models the unwrap of a missing page table or the dereference of a null
trap-frame pointer; tfMem is the content of the trap-frame page that p.tf
points to. -/
def user_init (p : Proc) (tfMem : TrapFrame) : Option (Proc × TrapFrame) :=
  match p.pagetable with
  | none => none
  | some pt =>
    let pt1 := uvm_init pt INITCODE
    match p.tf with
    | 0 => none
    | _ + 1 =>
      let tf1 := TrapFrame.set_sp { tfMem with epc := 0 } PGSIZE
      let name1 := initNameBytes ++ p.name.drop initNameBytes.length
      some ({ p with pagetable := some pt1, sz := PGSIZE,
                     state := ProcState.RUNNABLE, name := name1 }, tf1)

/-- process/proc.rs Proc::user_ret_prepare: snapshot into the trap frame the
hart's current satp register, this process's kernel stack top, the user-trap
handler address (an external symbol address passed as a parameter) and the
hart id; restore sepc from the trap frame's saved user pc; return the satp
token of the process's own page table. none models the dereference of a null
trap-frame pointer or the unwrap of a missing page table. -/
def user_ret_prepare (p : Proc) (tfMem : TrapFrame) (h : Hart) (userTrapAddr : Nat) :
    Option (TrapFrame × Hart × Nat) :=
  match p.tf with
  | 0 => none
  | _ + 1 =>
    let tf1 := { tfMem with kernel_satp := h.satp, kernel_sp := p.kstack + PGSIZE,
                            kernel_trap := userTrapAddr, kernel_hartid := h.hartid }
    let h1 := { h with sepc := tf1.epc }
    match p.pagetable with
    | none => none
    | some pt => some (tf1, h1, as_satp pt)

/-- The two panic sites of Proc::exit. -/
inductive ExitPanic where
  | initProcExiting : ExitPanic
  | todoUnimplemented : ExitPanic
deriving DecidableEq

/-- process/proc.rs Proc::exit: fatal if the process manager identifies this
process as the bootstrap (init) process, and otherwise also fatal because
full termination is unimplemented; it never returns. The manager's
is_init_proc predicate is external and passed as a Boolean. -/
def Proc.exit (p : Proc) (isInitProc : Bool) (status : Int) : Except ExitPanic Unit :=
  if isInitProc then Except.error ExitPanic.initProcExiting
  else Except.error ExitPanic.todoUnimplemented

/-- Program counter of one hart in the mutual-exclusion scenario of the
spec: each hart acquires the lock once, increments a shared counter by a
non-atomic read followed by a write of the read value plus one, releases,
and stops. idle = before the successful compare-and-swap (spinning on a
failed compare-and-swap leaves the state unchanged and is elided);
reading / writing v / releasing = inside the critical section; done =
after the release store. -/
inductive HartPc where
  | idle : HartPc
  | reading : HartPc
  | writing : Nat → HartPc
  | releasing : HartPc
  | done : HartPc
deriving DecidableEq

/-- A hart holds the lock from its successful compare-and-swap until its
release store. -/
def HartPc.holds : HartPc → Bool
  | HartPc.reading => true
  | HartPc.writing _ => true
  | HartPc.releasing => true
  | _ => false

/-- A hart has performed its counter write once it reaches releasing. -/
def HartPc.wrote : HartPc → Bool
  | HartPc.releasing => true
  | HartPc.done => true
  | _ => false

/-- Global state of the concurrent system: the lock's atomic locked flag,
the program counter of each of the H harts, and the shared counter protected
by the lock. -/
structure CState (H : Nat) where
  lockHeld : Bool
  pcs : Fin H → HartPc
  counter : Nat

/-- The initial state: lock free, every hart about to attempt its acquire,
counter zero. -/
def cInit (H : Nat) : CState H := ⟨false, fun _ => HartPc.idle, 0⟩

/-- Interleaving semantics of the scenario, one atomic event per step, as in
the source: a successful compare-and-swap of the locked flag from false to
true (SpinLock::acquire_lock), the read of the shared counter under the
lock, the write of the incremented value under the lock, and the release
store of false to the locked flag (SpinLock::release_lock). A failed
compare-and-swap changes nothing and is not represented. The acquire
ordering, release ordering and SeqCst fences of the source are what justify
reading this interleaving of atomic events as the only observable
behaviours. -/
inductive CStep {H : Nat} : CState H → CState H → Prop where
  | acquire (s : CState H) (h : Fin H) (hpc : s.pcs h = HartPc.idle)
      (hl : s.lockHeld = false) :
      CStep s ⟨true, Function.update s.pcs h HartPc.reading, s.counter⟩
  | readCtr (s : CState H) (h : Fin H) (hpc : s.pcs h = HartPc.reading) :
      CStep s ⟨s.lockHeld, Function.update s.pcs h (HartPc.writing s.counter), s.counter⟩
  | writeCtr (s : CState H) (h : Fin H) (v : Nat) (hpc : s.pcs h = HartPc.writing v) :
      CStep s ⟨s.lockHeld, Function.update s.pcs h HartPc.releasing, v + 1⟩
  | release (s : CState H) (h : Fin H) (hpc : s.pcs h = HartPc.releasing) :
      CStep s ⟨false, Function.update s.pcs h HartPc.done, s.counter⟩

/-- States reachable from the initial state by any interleaving. -/
def CReach {H : Nat} (s : CState H) : Prop :=
  Relation.ReflTransGen CStep (cInit H) s

/-- The inductive invariant: when the lock is free nobody is in the critical
section, at most one hart is in the critical section, the counter equals the
number of harts whose increment has completed, and a hart about to write
holds exactly the current counter value. -/
def CInv {H : Nat} (s : CState H) : Prop :=
  (s.lockHeld = false → ∀ h, HartPc.holds (s.pcs h) = false)
  ∧ (∀ h1 h2, HartPc.holds (s.pcs h1) = true → HartPc.holds (s.pcs h2) = true → h1 = h2)
  ∧ s.counter = (Finset.univ.filter fun x => HartPc.wrote (s.pcs x) = true).card
  ∧ (∀ h v, s.pcs h = HartPc.writing v → v = s.counter)

/-- Concrete interrupt state with interrupts enabled and no outstanding
pushes, used by witnesses. -/
def intrEn : IntrState := ⟨true, 0, false⟩

/-- Concrete held lock owned by hart 0, used by witnesses. -/
def lkHeld0 : LockState := ⟨0, true⟩

/-- Concrete hart 0 inside one critical section, used by witnesses. -/
def hartAcq : Hart := ⟨0, ⟨false, 1, true⟩, 0, 0⟩

/-- Concrete held lock owned by hart 3, used by witnesses. -/
def lkRel : LockState := ⟨3, true⟩

/-- Concrete hart 3 (the holder of lkRel), used by witnesses. -/
def hartRel : Hart := ⟨3, ⟨false, 1, true⟩, 0, 0⟩

/-- Concrete hart 5 (not the holder of lkRel), used by witnesses. -/
def hartNon : Hart := ⟨5, ⟨false, 1, false⟩, 0, 0⟩

/-- Concrete free lock, used by the holding counterexample. -/
def lkFree : LockState := ⟨-1, false⟩

/-- Concrete hart with local interrupts enabled, used by the holding
counterexample. -/
def hartEn : Hart := ⟨0, ⟨true, 0, false⟩, 0, 0⟩

/-- Witness trace for the mutual-exclusion theorem, one hart: initial
state. -/
def cs0 : CState 1 := cInit 1

/-- Witness trace: after hart 0's successful compare-and-swap. -/
def cs1 : CState 1 := ⟨true, Function.update cs0.pcs 0 HartPc.reading, cs0.counter⟩

/-- Witness trace: after hart 0 read the counter under the lock. -/
def cs2 : CState 1 :=
  ⟨cs1.lockHeld, Function.update cs1.pcs 0 (HartPc.writing cs1.counter), cs1.counter⟩

/-- Witness trace: after hart 0 wrote the incremented counter. -/
def cs3 : CState 1 :=
  ⟨cs2.lockHeld, Function.update cs2.pcs 0 HartPc.releasing, cs2.counter + 1⟩

/-- Witness trace: after hart 0's release store; every hart is done. -/
def cs4 : CState 1 := ⟨false, Function.update cs3.pcs 0 HartPc.done, cs3.counter⟩

/-- Concrete Proc with a bound trap-frame pointer, used by witnesses. -/
def procTf : Proc := Proc.set_tf Proc.new 69632

/-- Concrete Proc with a bound trap-frame pointer and a built (still empty)
page table, used by witnesses. -/
def procRdy : Proc :=
  { Proc.new with tf := 8192, kstack := 12288, pagetable := some (uvm_create 16384) }

/-- Concrete Proc with a bound trap-frame pointer but no page table, used by
witnesses. -/
def procNoPt : Proc := Proc.set_tf Proc.new 8192

/-- Concrete trap-frame content, used by witnesses. -/
def tfSeed : TrapFrame := ⟨1, 2, 3, 4, 5, 6⟩

/-- Concrete hart 2 with nonzero satp, used by witnesses. -/
def hartRun : Hart := ⟨2, ⟨false, 1, true⟩, 911, 0⟩

/-- Evaluation of one spinlock push_off. -/
lemma push_off_eval (s : IntrState) :
    push_off s = ⟨false, s.noff + 1, if s.noff = 0 then s.sie else s.intena⟩ := rfl

/-- Evaluation of one spinlock pop_off on a disabled-interrupt state with at
least one outstanding push. -/
lemma pop_off_eval (s : IntrState) (m : Nat) (hsie : s.sie = false)
    (hm : s.noff = m + 1) :
    pop_off s = some ⟨(m == 0) && s.intena, m, s.intena⟩ := by
  simp [pop_off, intr_get, hsie, proc_pop_off, hm]

/-- pushN adds n to the nesting counter. -/
lemma pushN_noff : ∀ (n : Nat) (s : IntrState), (pushN n s).noff = s.noff + n := by
  intro n
  induction n with
  | zero => intro s; rfl
  | succ m ih =>
    intro s
    show (pushN m (push_off s)).noff = s.noff + (m + 1)
    rw [ih (push_off s)]
    simp [push_off_eval]
    omega

/-- After at least one push_off, local interrupts are disabled. -/
lemma pushN_sie : ∀ (n : Nat) (s : IntrState), 1 ≤ n → (pushN n s).sie = false := by
  intro n
  induction n with
  | zero => intro s h; exact absurd h (by decide)
  | succ m ih =>
    intro s _
    cases Nat.eq_zero_or_pos m with
    | inl h0 =>
      subst h0
      show (push_off s).sie = false
      rw [push_off_eval]
    | inr hpos =>
      show (pushN m (push_off s)).sie = false
      exact ih (push_off s) hpos

/-- pushN does not touch the recorded enable state once the counter is
nonzero. -/
lemma pushN_intena_stable : ∀ (n : Nat) (s : IntrState), s.noff ≠ 0 →
    (pushN n s).intena = s.intena := by
  intro n
  induction n with
  | zero => intro s _; rfl
  | succ m ih =>
    intro s hs
    show (pushN m (push_off s)).intena = s.intena
    rw [ih (push_off s) (by rw [push_off_eval]; simp), push_off_eval]
    simp [hs]

/-- Starting from a quiescent counter, the outermost push records the
pre-disable enable state, and later pushes keep it. -/
lemma pushN_intena (n : Nat) (s : IntrState) (h0 : s.noff = 0) (hn : 1 ≤ n) :
    (pushN n s).intena = s.sie := by
  cases n with
  | zero => exact absurd hn (by decide)
  | succ m =>
    show (pushN m (push_off s)).intena = s.sie
    rw [pushN_intena_stable m (push_off s) (by rw [push_off_eval]; simp), push_off_eval]
    simp [h0]

/-- While pops still leave outstanding pushes, every pop succeeds, keeps
interrupts disabled, and decrements the counter. -/
lemma popN_mid : ∀ (j : Nat) (s : IntrState), s.sie = false → j < s.noff →
    ∃ t, popN j s = some t ∧ t.sie = false ∧ t.noff = s.noff - j
      ∧ t.intena = s.intena := by
  intro j
  induction j with
  | zero => intro s hs _; exact ⟨s, rfl, hs, by omega, rfl⟩
  | succ k ih =>
    intro s hs hj
    obtain ⟨m, hm⟩ : ∃ m, s.noff = m + 1 := by
      cases hn : s.noff with
      | zero => rw [hn] at hj; exact absurd hj (by omega)
      | succ m => exact ⟨m, rfl⟩
    have hkm : k < m := by omega
    have hm0 : (m == 0) = false := by
      have hne : m ≠ 0 := by omega
      exact beq_eq_false_iff_ne.mpr hne
    have hpop : pop_off s = some ⟨false, m, s.intena⟩ := by
      rw [pop_off_eval s m hs hm, hm0]
      simp
    obtain ⟨t, ht, hts, htn, hti⟩ := ih ⟨false, m, s.intena⟩ rfl (by simpa using hkm)
    refine ⟨t, ?_, hts, ?_, hti⟩
    · show (pop_off s).bind (popN k) = some t
      rw [hpop]
      exact ht
    · rw [htn, hm]
      simp

/-- Popping exactly as many times as the counter holds succeeds and restores
the recorded enable state. -/
lemma popN_all : ∀ (n : Nat) (s : IntrState), s.sie = false → s.noff = n + 1 →
    popN (n + 1) s = some ⟨s.intena, 0, s.intena⟩ := by
  intro n
  induction n with
  | zero =>
    intro s hs hn
    show (pop_off s).bind (popN 0) = some ⟨s.intena, 0, s.intena⟩
    rw [pop_off_eval s 0 hs hn]
    simp [popN]
  | succ k ih =>
    intro s hs hn
    show (pop_off s).bind (popN (k + 1)) = some ⟨s.intena, 0, s.intena⟩
    rw [pop_off_eval s (k + 1) hs hn]
    have hz : ((k + 1 == 0) && s.intena) = false := rfl
    rw [hz]
    exact ih ⟨false, k + 1, s.intena⟩ rfl rfl

/-- Claim C9: for every hart state with a quiescent nesting counter and every
n, during a sequence of n push_off calls followed by n pop_off calls local
interrupts are disabled after every proper prefix in which pushes outnumber
pops, no pop is fatal, and the final interrupt-enable state and nesting
counter equal the state recorded immediately before the first push_off. -/
theorem push_pop_symmetry (n : Nat) (s : IntrState) (h0 : s.noff = 0) :
    (∀ k, 1 ≤ k → k ≤ n → (pushN k s).sie = false)
    ∧ (∀ j, j < n → ∃ t, popN j (pushN n s) = some t ∧ t.sie = false)
    ∧ (∃ t, popN n (pushN n s) = some t ∧ t.sie = s.sie ∧ t.noff = 0) := by
  have hnoff : (pushN n s).noff = n := by rw [pushN_noff n s, h0]; omega
  refine ⟨fun k hk1 _ => pushN_sie k s hk1, ?_, ?_⟩
  · intro j hj
    have hsie : (pushN n s).sie = false := pushN_sie n s (by omega)
    obtain ⟨t, ht, hts, _, _⟩ := popN_mid j (pushN n s) hsie (by rw [hnoff]; exact hj)
    exact ⟨t, ht, hts⟩
  · cases n with
    | zero => exact ⟨s, rfl, rfl, h0⟩
    | succ m =>
      have hsie : (pushN (m + 1) s).sie = false := pushN_sie (m + 1) s (by omega)
      have hint : (pushN (m + 1) s).intena = s.sie := pushN_intena (m + 1) s h0 (by omega)
      refine ⟨⟨s.sie, 0, s.sie⟩, ?_, rfl, rfl⟩
      have hall := popN_all m (pushN (m + 1) s) hsie (by rw [hnoff])
      rw [hall, hint]

/-- Witness for C9 at n = 2 from an enabled, quiescent state. -/
theorem push_pop_symmetry_witness :
    (pushN 1 intrEn).sie = false
    ∧ (∃ t, popN 1 (pushN 2 intrEn) = some t ∧ t.sie = false)
    ∧ (∃ t, popN 2 (pushN 2 intrEn) = some t ∧ t.sie = intrEn.sie ∧ t.noff = 0) := by
  have h := push_pop_symmetry 2 intrEn rfl
  exact ⟨h.1 1 (by decide) (by decide), h.2.1 1 (by decide), h.2.2⟩

/-- Evaluation of holding on a quiescent nesting counter: it returns the
owner test and restores the interrupt state exactly. -/
lemma holding_eval_zero (lk : LockState) (h : Hart) (h0 : h.intr.noff = 0) :
    holding lk h = some (lk.lock && (lk.cpu_id == (h.hartid : Int)),
      { h with intr := ⟨h.intr.sie, 0, h.intr.sie⟩ }) := by
  have hpush : push_off h.intr = ⟨false, 1, h.intr.sie⟩ := by
    rw [push_off_eval]
    simp [h0]
  have hpop : pop_off (⟨false, 1, h.intr.sie⟩ : IntrState)
      = some ⟨h.intr.sie, 0, h.intr.sie⟩ := by
    rw [pop_off_eval _ 0 rfl rfl]
    simp
  simp [holding, hpush, hpop]

/-- Evaluation of holding under an outstanding push: it returns the owner
test, leaves interrupts disabled and the counter unchanged. -/
lemma holding_eval_pos (lk : LockState) (h : Hart) (m : Nat)
    (hm : h.intr.noff = m + 1) :
    holding lk h = some (lk.lock && (lk.cpu_id == (h.hartid : Int)),
      { h with intr := ⟨false, m + 1, h.intr.intena⟩ }) := by
  have hpush : push_off h.intr = ⟨false, m + 2, h.intr.intena⟩ := by
    rw [push_off_eval]
    simp [hm]
  have hpop : pop_off (⟨false, m + 2, h.intr.intena⟩ : IntrState)
      = some ⟨false, m + 1, h.intr.intena⟩ := by
    rw [pop_off_eval _ (m + 1) rfl rfl]
    simp
  simp [holding, hpush, hpop]

/-- Counterexample to the fatality half of claim C7: evaluating holding with
local interrupts enabled does not abort; it returns normally, because holding
itself disables interrupts around the check. -/
theorem holding_enabled_no_panic :
    intr_get hartEn.intr = true ∧ holding lkFree hartEn ≠ none := by decide

/-- Claim C7 as amended: holding always returns, and returns true exactly
when the locked flag is set and the recorded owner equals the current
hart. -/
theorem holding_iff_owner (lk : LockState) (h : Hart) :
    ∃ q : Bool × Hart, holding lk h = some q
      ∧ (q.fst = true ↔ lk.lock = true ∧ lk.cpu_id = (h.hartid : Int)) := by
  cases hn : h.intr.noff with
  | zero =>
    refine ⟨_, holding_eval_zero lk h hn, ?_⟩
    simp
  | succ m =>
    refine ⟨_, holding_eval_pos lk h m hn, ?_⟩
    simp

/-- Claim C5: acquiring a lock already held by the current hart aborts
rather than returning or spinning. -/
theorem acquire_self_deadlock (lk : LockState) (h : Hart)
    (hl : lk.lock = true) (ho : lk.cpu_id = (h.hartid : Int)) :
    acquire_lock lk h = AcqResult.panicked := by
  have hn : ({ h with intr := push_off h.intr } : Hart).intr.noff
      = h.intr.noff + 1 := by
    show (push_off h.intr).noff = h.intr.noff + 1
    rw [push_off_eval]
  have hh := holding_eval_pos lk { h with intr := push_off h.intr } h.intr.noff hn
  simp only [acquire_lock]
  rw [hh]
  simp [hl, ho]

/-- Witness for C5: hart 0 re-acquiring the lock it already owns panics. -/
theorem acquire_self_deadlock_witness :
    lkHeld0.lock = true ∧ lkHeld0.cpu_id = (hartAcq.hartid : Int)
    ∧ acquire_lock lkHeld0 hartAcq = AcqResult.panicked :=
  ⟨by decide, by decide, acquire_self_deadlock lkHeld0 hartAcq (by decide) (by decide)⟩

/-- Claim C6: releasing a lock the current hart does not hold is fatal on
every path including the guard's drop; releasing as the holder clears the
owner, stores locked = false, and decrements the nesting counter, re-enabling
interrupts exactly when the counter reaches zero and the recorded state was
enabled. -/
theorem release_lock_spec :
    (∀ lk h, ¬(lk.lock = true ∧ lk.cpu_id = (h.hartid : Int)) →
      release_lock lk h = none)
    ∧ (∀ lk h m, lk.lock = true → lk.cpu_id = (h.hartid : Int) →
        h.intr.sie = false → h.intr.noff = m + 1 →
        release_lock lk h = some (⟨-1, false⟩,
          { h with intr := ⟨(m == 0) && h.intr.intena, m, h.intr.intena⟩ }))
    ∧ (∀ lk h, guard_drop lk h = release_lock lk h) := by
  refine ⟨?_, ?_, fun lk h => rfl⟩
  · intro lk h hna
    have hr : (lk.lock && (lk.cpu_id == (h.hartid : Int))) = false := by
      by_cases hb : lk.lock = true
      · by_cases hc : lk.cpu_id = (h.hartid : Int)
        · exact absurd ⟨hb, hc⟩ hna
        · rw [beq_eq_false_iff_ne.mpr hc, Bool.and_false]
      · rw [Bool.eq_false_iff.mpr hb, Bool.false_and]
    cases hn : h.intr.noff with
    | zero =>
      simp only [release_lock]
      rw [holding_eval_zero lk h hn]
      simp [hr]
    | succ m =>
      simp only [release_lock]
      rw [holding_eval_pos lk h m hn]
      simp [hr]
  · intro lk h m hl ho hsie hm
    have hr : (lk.lock && (lk.cpu_id == (h.hartid : Int))) = true := by
      rw [hl, ho]
      simp
    have hpop : pop_off (⟨false, m + 1, h.intr.intena⟩ : IntrState)
        = some ⟨(m == 0) && h.intr.intena, m, h.intr.intena⟩ := by
      rw [pop_off_eval _ m rfl rfl]
    simp only [release_lock]
    rw [holding_eval_pos lk h m hm]
    simp [hr, hpop]

/-- Witness for C6: a non-holder's release panics; the holder's release
frees the lock and decrements the counter; the guard's drop is the same
release. -/
theorem release_lock_spec_witness :
    release_lock lkRel hartNon = none
    ∧ release_lock lkRel hartRel = some (⟨-1, false⟩,
        { hartRel with intr := ⟨(0 == 0) && hartRel.intr.intena, 0, hartRel.intr.intena⟩ })
    ∧ guard_drop lkRel hartRel = release_lock lkRel hartRel :=
  ⟨release_lock_spec.1 lkRel hartNon (by decide),
   release_lock_spec.2.1 lkRel hartRel 0 (by decide) (by decide) (by decide) (by decide),
   release_lock_spec.2.2 lkRel hartRel⟩

/-- Claim C2: for every Proc whose trap-frame pointer has been set,
proc_pagetable succeeds and yields a page table holding exactly the
trampoline mapping with read+execute permission and the trap-frame mapping
with read+write permission, and nothing else. -/
theorem proc_pagetable_exact_mappings (p : Proc) (root trampolinePa : Nat)
    (htf : p.tf ≠ 0) :
    proc_pagetable p root trampolinePa = some { p with
      pagetable := some ⟨root,
        [(TRAMPOLINE, trampolinePa, pteR ||| pteX),
         (TRAPFRAME, p.tf, pteR ||| pteW)], []⟩ } := by
  have hne : (TRAMPOLINE == TRAPFRAME) = false := by decide
  have h1 : map_pages (uvm_create root) TRAMPOLINE PGSIZE trampolinePa (pteR ||| pteX)
      = Except.ok ⟨root, [(TRAMPOLINE, trampolinePa, pteR ||| pteX)], []⟩ := by
    simp [map_pages, uvm_create]
  have h2 : map_pages ⟨root, [(TRAMPOLINE, trampolinePa, pteR ||| pteX)], []⟩
        TRAPFRAME PGSIZE p.tf (pteR ||| pteW)
      = Except.ok ⟨root, [(TRAMPOLINE, trampolinePa, pteR ||| pteX),
                          (TRAPFRAME, p.tf, pteR ||| pteW)], []⟩ := by
    simp [map_pages, hne]
  exact (congrArg (fun z : Except Unit PageTable => z.toOption.bind
      (fun pt1 => (map_pages pt1 TRAPFRAME PGSIZE p.tf (pteR ||| pteW)).toOption.bind
        (fun pt2 => some ({ p with pagetable := some pt2 } : Proc)))) h1).trans
    (congrArg (fun z : Except Unit PageTable => z.toOption.bind
      (fun pt2 => some ({ p with pagetable := some pt2 } : Proc))) h2)

/-- Witness for C2 on a concrete Proc, root page and trampoline address. -/
theorem proc_pagetable_exact_mappings_witness :
    procTf.tf ≠ 0
    ∧ proc_pagetable procTf 73728 65536 = some { procTf with
        pagetable := some ⟨73728,
          [(TRAMPOLINE, 65536, pteR ||| pteX),
           (TRAPFRAME, procTf.tf, pteR ||| pteW)], []⟩ } :=
  ⟨by decide, proc_pagetable_exact_mappings procTf 73728 65536 (by decide)⟩

/-- Claim C3: for every Proc with a built page table and bound trap frame,
user_ret_prepare returns the satp encoding of that process's own page table,
and stores into the trap frame the hart's current satp, the kernel stack top
(stack base plus one page), the trap-entry handler address, and the calling
hart's id; sepc is reloaded from the saved user pc. -/
theorem user_ret_prepare_roundtrip (p : Proc) (tfMem : TrapFrame) (h : Hart)
    (userTrapAddr : Nat) (pt : PageTable)
    (hpt : p.pagetable = some pt) (htf : p.tf ≠ 0) :
    ∃ tf1 h1, user_ret_prepare p tfMem h userTrapAddr = some (tf1, h1, as_satp pt)
      ∧ tf1.kernel_satp = h.satp ∧ tf1.kernel_sp = p.kstack + PGSIZE
      ∧ tf1.kernel_trap = userTrapAddr ∧ tf1.kernel_hartid = h.hartid
      ∧ h1.sepc = tfMem.epc := by
  obtain ⟨m, hm⟩ := Nat.exists_eq_succ_of_ne_zero htf
  refine ⟨{ tfMem with kernel_satp := h.satp, kernel_sp := p.kstack + PGSIZE,
                       kernel_trap := userTrapAddr, kernel_hartid := h.hartid },
          { h with sepc := tfMem.epc }, ?_, rfl, rfl, rfl, rfl, rfl⟩
  simp [user_ret_prepare, hm, hpt]

/-- Witness for C3 on a concrete ready Proc, trap frame and hart. -/
theorem user_ret_prepare_roundtrip_witness :
    procRdy.pagetable = some (uvm_create 16384) ∧ procRdy.tf ≠ 0
    ∧ ∃ tf1 h1, user_ret_prepare procRdy tfSeed hartRun 4096
        = some (tf1, h1, as_satp (uvm_create 16384))
      ∧ tf1.kernel_satp = hartRun.satp ∧ tf1.kernel_sp = procRdy.kstack + PGSIZE
      ∧ tf1.kernel_trap = 4096 ∧ tf1.kernel_hartid = hartRun.hartid
      ∧ h1.sepc = tfSeed.epc :=
  ⟨rfl, by decide,
   user_ret_prepare_roundtrip procRdy tfSeed hartRun 4096 (uvm_create 16384) rfl (by decide)⟩

/-- Claim C4: for every freshly constructed Proc (all-zero name) with a built
page table and bound trap frame, user_init makes it RUNNABLE with a one-page
address space, entry pc 0, user stack pointer equal to the page size, and the
16-byte name equal to the 9-byte initcode label (terminator included) padded
with zero bytes. -/
theorem user_init_bootstrap (p : Proc) (tfMem : TrapFrame) (pt : PageTable)
    (hpt : p.pagetable = some pt) (htf : p.tf ≠ 0)
    (hname : p.name = List.replicate 16 0) :
    ∃ p1 tf1, user_init p tfMem = some (p1, tf1)
      ∧ p1.state = ProcState.RUNNABLE ∧ p1.sz = PGSIZE
      ∧ tf1.epc = 0 ∧ tf1.sp = PGSIZE
      ∧ p1.name = initNameBytes ++ List.replicate 7 0 ∧ p1.name.length = 16 := by
  obtain ⟨m, hm⟩ := Nat.exists_eq_succ_of_ne_zero htf
  refine ⟨{ p with pagetable := some (uvm_init pt INITCODE), sz := PGSIZE,
                   state := ProcState.RUNNABLE,
                   name := initNameBytes ++ p.name.drop initNameBytes.length },
          TrapFrame.set_sp { tfMem with epc := 0 } PGSIZE, ?_, rfl, rfl, rfl, rfl, ?_, ?_⟩
  · simp [user_init, hpt, hm]
  · show initNameBytes ++ p.name.drop initNameBytes.length
      = initNameBytes ++ List.replicate 7 0
    rw [hname]
    decide
  · show (initNameBytes ++ p.name.drop initNameBytes.length).length = 16
    rw [hname]
    decide

/-- Witness for C4 on a concrete ready Proc. -/
theorem user_init_bootstrap_witness :
    procRdy.name = List.replicate 16 0
    ∧ ∃ p1 tf1, user_init procRdy tfSeed = some (p1, tf1)
      ∧ p1.state = ProcState.RUNNABLE ∧ p1.sz = PGSIZE
      ∧ tf1.epc = 0 ∧ tf1.sp = PGSIZE
      ∧ p1.name = initNameBytes ++ List.replicate 7 0 ∧ p1.name.length = 16 :=
  ⟨rfl, user_init_bootstrap procRdy tfSeed (uvm_create 16384) rfl (by decide) rfl⟩

/-- Claim C8: exit never returns normally; exiting the bootstrap process
panics at the init-proc check regardless of the status code, and exiting any
other process also stops fatally at the unimplemented-termination panic
rather than transitioning to ZOMBIE. -/
theorem exit_never_returns :
    (∀ (p : Proc) (b : Bool) (status : Int) (u : Unit),
      Proc.exit p b status ≠ Except.ok u)
    ∧ (∀ (p : Proc) (status : Int),
        Proc.exit p true status = Except.error ExitPanic.initProcExiting)
    ∧ (∀ (p : Proc) (status : Int),
        Proc.exit p false status = Except.error ExitPanic.todoUnimplemented) := by
  refine ⟨?_, fun p status => rfl, fun p status => rfl⟩
  intro p b status u hc
  cases b <;> simp [Proc.exit] at hc

/-- Witness for C8 on concrete status codes of both signs. -/
theorem exit_never_returns_witness :
    Proc.exit Proc.new true 0 ≠ Except.ok ()
    ∧ Proc.exit Proc.new true (-7) = Except.error ExitPanic.initProcExiting
    ∧ Proc.exit Proc.new false 42 = Except.error ExitPanic.todoUnimplemented :=
  ⟨exit_never_returns.1 Proc.new true 0 (), exit_never_returns.2.1 Proc.new (-7),
   exit_never_returns.2.2 Proc.new 42⟩

/-- Claim C10: user_init and user_ret_prepare abort on the unwrap of a
missing page table, and with a built page table and bound trap frame neither
aborts. -/
theorem pagetable_required_ops :
    (∀ p tfMem, p.pagetable = none → user_init p tfMem = none)
    ∧ (∀ p tfMem h u, p.pagetable = none → user_ret_prepare p tfMem h u = none)
    ∧ (∀ p tfMem pt, p.pagetable = some pt → p.tf ≠ 0 →
        (user_init p tfMem).isSome = true)
    ∧ (∀ p tfMem h u pt, p.pagetable = some pt → p.tf ≠ 0 →
        (user_ret_prepare p tfMem h u).isSome = true) := by
  refine ⟨?_, ?_, ?_, ?_⟩
  · intro p tfMem hnone
    simp [user_init, hnone]
  · intro p tfMem h u hnone
    cases htf : p.tf with
    | zero => simp [user_ret_prepare, htf]
    | succ m => simp [user_ret_prepare, htf, hnone]
  · intro p tfMem pt hpt htf
    obtain ⟨m, hm⟩ := Nat.exists_eq_succ_of_ne_zero htf
    simp [user_init, hpt, hm]
  · intro p tfMem h u pt hpt htf
    obtain ⟨m, hm⟩ := Nat.exists_eq_succ_of_ne_zero htf
    simp [user_ret_prepare, hpt, hm]

/-- Witness for C10: a Proc with no page table makes both operations abort; a
ready Proc makes both succeed. -/
theorem pagetable_required_ops_witness :
    user_init procNoPt tfSeed = none
    ∧ user_ret_prepare procNoPt tfSeed hartRun 4096 = none
    ∧ (user_init procRdy tfSeed).isSome = true
    ∧ (user_ret_prepare procRdy tfSeed hartRun 4096).isSome = true :=
  ⟨pagetable_required_ops.1 procNoPt tfSeed rfl,
   pagetable_required_ops.2.1 procNoPt tfSeed hartRun 4096 rfl,
   pagetable_required_ops.2.2.1 procRdy tfSeed (uvm_create 16384) rfl (by decide),
   pagetable_required_ops.2.2.2 procRdy tfSeed hartRun 4096 (uvm_create 16384) rfl (by decide)⟩

/-- Updating a hart to a program counter with the same wrote-status leaves
the set of harts that completed their increment unchanged. -/
lemma wrote_filter_update_congr {H : Nat} (f : Fin H → HartPc) (h : Fin H)
    (g : HartPc) (hsame : HartPc.wrote g = HartPc.wrote (f h)) :
    (Finset.univ.filter fun x => HartPc.wrote (Function.update f h g x) = true)
      = Finset.univ.filter fun x => HartPc.wrote (f x) = true := by
  apply Finset.filter_congr
  intro x _
  by_cases hx : x = h
  · subst hx
    simp [Function.update_same, hsame]
  · simp [Function.update_noteq hx]

/-- Updating a hart from a not-yet-written to a written program counter adds
exactly that hart to the set of harts that completed their increment. -/
lemma wrote_filter_update_insert {H : Nat} (f : Fin H → HartPc) (h : Fin H)
    (g : HartPc) (hold : HartPc.wrote (f h) = false)
    (hnew : HartPc.wrote g = true) :
    (Finset.univ.filter fun x => HartPc.wrote (Function.update f h g x) = true)
      = insert h (Finset.univ.filter fun x => HartPc.wrote (f x) = true) := by
  ext x
  by_cases hx : x = h
  · subst hx
    simp [Function.update_same, hnew]
  · simp [Function.update_noteq hx, hx]

/-- The invariant holds initially. -/
lemma cInv_init (H : Nat) : CInv (cInit H) := by
  refine ⟨fun _ h => rfl, fun h1 h2 hh1 _ => ?_, ?_, fun h v hw => ?_⟩
  · exact absurd hh1 (by simp [cInit, HartPc.holds])
  · simp [cInit, HartPc.wrote]
  · exact absurd hw (by simp [cInit])

/-- Every atomic step of the interleaving semantics preserves the
invariant. -/
lemma cInv_step {H : Nat} {s t : CState H} (st : CStep s t) (inv : CInv s) :
    CInv t := by
  obtain ⟨i1, i2, i3, i4⟩ := inv
  cases st with
  | acquire h hpc hl =>
    have hnone : ∀ x, HartPc.holds (s.pcs x) = false := i1 hl
    have honly : ∀ x, HartPc.holds (Function.update s.pcs h HartPc.reading x) = true
        → x = h := by
      intro x hx
      by_cases hxh : x = h
      · exact hxh
      · rw [Function.update_noteq hxh, hnone x] at hx
        exact Bool.noConfusion hx
    refine ⟨?_, ?_, ?_, ?_⟩ <;> dsimp only
    · intro hc
      exact Bool.noConfusion hc
    · intro h1 h2 hh1 hh2
      rw [honly h1 hh1, honly h2 hh2]
    · rw [wrote_filter_update_congr s.pcs h HartPc.reading (by rw [hpc]; rfl)]
      exact i3
    · intro y w hx
      by_cases hyh : y = h
      · subst hyh
        rw [Function.update_same] at hx
        exact HartPc.noConfusion hx
      · rw [Function.update_noteq hyh] at hx
        have hw : HartPc.holds (s.pcs y) = true := by rw [hx]; rfl
        rw [hnone y] at hw
        exact Bool.noConfusion hw
  | readCtr h hpc =>
    have hheld : HartPc.holds (s.pcs h) = true := by rw [hpc]; rfl
    have honly : ∀ x, HartPc.holds (s.pcs x) = true → x = h :=
      fun x hx => i2 x h hx hheld
    have key : ∀ x, HartPc.holds
        (Function.update s.pcs h (HartPc.writing s.counter) x) = true → x = h := by
      intro x hx
      by_cases hxh : x = h
      · exact hxh
      · rw [Function.update_noteq hxh] at hx
        exact honly x hx
    refine ⟨?_, ?_, ?_, ?_⟩ <;> dsimp only
    · intro hc
      have hno := i1 hc h
      rw [hno] at hheld
      exact Bool.noConfusion hheld
    · intro h1 h2 hh1 hh2
      rw [key h1 hh1, key h2 hh2]
    · rw [wrote_filter_update_congr s.pcs h (HartPc.writing s.counter) (by rw [hpc]; rfl)]
      exact i3
    · intro y w hx
      by_cases hyh : y = h
      · subst hyh
        rw [Function.update_same] at hx
        injection hx with hv
        exact hv.symm
      · rw [Function.update_noteq hyh] at hx
        have hw : HartPc.holds (s.pcs y) = true := by rw [hx]; rfl
        exact absurd (honly y hw) hyh
  | writeCtr h v hpc =>
    have hheld : HartPc.holds (s.pcs h) = true := by rw [hpc]; rfl
    have honly : ∀ x, HartPc.holds (s.pcs x) = true → x = h :=
      fun x hx => i2 x h hx hheld
    have hv : v = s.counter := i4 h v hpc
    have hnotmem : h ∉ (Finset.univ.filter fun x => HartPc.wrote (s.pcs x) = true) := by
      simp [Finset.mem_filter, hpc, HartPc.wrote]
    have key : ∀ x, HartPc.holds
        (Function.update s.pcs h HartPc.releasing x) = true → x = h := by
      intro x hx
      by_cases hxh : x = h
      · exact hxh
      · rw [Function.update_noteq hxh] at hx
        exact honly x hx
    refine ⟨?_, ?_, ?_, ?_⟩ <;> dsimp only
    · intro hc
      have hno := i1 hc h
      rw [hno] at hheld
      exact Bool.noConfusion hheld
    · intro h1 h2 hh1 hh2
      rw [key h1 hh1, key h2 hh2]
    · rw [wrote_filter_update_insert s.pcs h HartPc.releasing (by rw [hpc]; rfl) rfl]
      rw [Finset.card_insert_of_not_mem hnotmem, ← i3, hv]
    · intro y w hx
      by_cases hyh : y = h
      · subst hyh
        rw [Function.update_same] at hx
        exact HartPc.noConfusion hx
      · rw [Function.update_noteq hyh] at hx
        have hw : HartPc.holds (s.pcs y) = true := by rw [hx]; rfl
        exact absurd (honly y hw) hyh
  | release h hpc =>
    have hheld : HartPc.holds (s.pcs h) = true := by rw [hpc]; rfl
    have honly : ∀ x, HartPc.holds (s.pcs x) = true → x = h :=
      fun x hx => i2 x h hx hheld
    have hnone : ∀ x, HartPc.holds (Function.update s.pcs h HartPc.done x) = false := by
      intro x
      by_cases hxh : x = h
      · subst hxh
        rw [Function.update_same]
        rfl
      · rw [Function.update_noteq hxh]
        cases hb : HartPc.holds (s.pcs x) with
        | false => rfl
        | true => exact absurd (honly x hb) hxh
    refine ⟨?_, ?_, ?_, ?_⟩ <;> dsimp only
    · intro _
      exact hnone
    · intro h1 h2 hh1 hh2
      rw [hnone h1] at hh1
      exact Bool.noConfusion hh1
    · rw [wrote_filter_update_congr s.pcs h HartPc.done (by rw [hpc]; rfl)]
      exact i3
    · intro y w hx
      by_cases hyh : y = h
      · subst hyh
        rw [Function.update_same] at hx
        exact HartPc.noConfusion hx
      · rw [Function.update_noteq hyh] at hx
        have hw : HartPc.holds (s.pcs y) = true := by rw [hx]; rfl
        exact absurd (honly y hw) hyh

/-- The invariant holds in every reachable state. -/
lemma cInv_reach {H : Nat} {s : CState H} (hr : CReach s) : CInv s := by
  have hr2 : Relation.ReflTransGen CStep (cInit H) s := hr
  clear hr
  induction hr2 with
  | refl => exact cInv_init H
  | tail _ st ih => exact cInv_step st ih

/-- Claim C1: in every reachable state of the interleaving semantics, at
most one hart holds the lock (so no acquire succeeds between another hart's
successful acquire and its matching release, during which the locked flag
stays set), and when every hart has finished, the counter protected by the
lock equals H, the exact number of increments attempted. -/
theorem spinlock_mutual_exclusion (H : Nat) (s : CState H) (hr : CReach s) :
    (∀ h1 h2, HartPc.holds (s.pcs h1) = true → HartPc.holds (s.pcs h2) = true
      → h1 = h2)
    ∧ (s.lockHeld = false → ∀ h, HartPc.holds (s.pcs h) = false)
    ∧ ((∀ h, s.pcs h = HartPc.done) → s.counter = H) := by
  obtain ⟨i1, i2, i3, i4⟩ := cInv_reach hr
  refine ⟨i2, i1, fun hall => ?_⟩
  rw [i3]
  have hfull : (Finset.univ.filter fun x => HartPc.wrote (s.pcs x) = true)
      = Finset.univ := by
    apply Finset.filter_true_of_mem
    intro x _
    rw [hall x]
    rfl
  rw [hfull, Finset.card_univ, Fintype.card_fin]

/-- The four-step execution of one hart reaches the all-done state. -/
lemma creach_cs4 : CReach cs4 :=
  Relation.ReflTransGen.tail
    (Relation.ReflTransGen.tail
      (Relation.ReflTransGen.tail
        (Relation.ReflTransGen.tail Relation.ReflTransGen.refl
          (CStep.acquire cs0 0 rfl rfl))
        (CStep.readCtr cs1 0 (by decide)))
      (CStep.writeCtr cs2 0 cs1.counter (by decide)))
    (CStep.release cs3 0 (by decide))

/-- Witness for C1: the concrete one-hart run is reachable and ends with the
counter equal to the one increment attempted. -/
theorem spinlock_mutual_exclusion_witness :
    CReach cs4 ∧ cs4.counter = 1 :=
  ⟨creach_cs4, (spinlock_mutual_exclusion 1 cs4 creach_cs4).2.2 (by decide)⟩
